import Mathlib

/-!
Verification of the chunked data-ingestion pipeline and the streaming
evaluation engine of the gradient-boosted-tree training driver
(`src/Train.cpp`).

Modelling conventions:
* C++ `double` is modelled as `ℚ` (exact arithmetic).
* The external `DataSet::getRow` row parser is a parameter of type
  `String → Option (List ℚ × ℚ × ℚ)` returning (features, target, loggedScore),
  `none` on a malformed line.
* The external `DataSet::addVector` append is a parameter
  `σ → List ℚ → ℚ → Bool × σ` over an abstract dataset state `σ`; the returned
  `Bool` is the accepted flag.
* Fallible code (the `CHECK` abort in `addToDataSet`) returns `Option`.
* The parallel parse path is modelled by an explicit schedule: a list of chunk
  indices in the order the worker pool happens to complete them; the latch
  guarantees (claim C10) that every index has run before `wait` returns, which
  is the `Perm (range n)` hypothesis.
-/

namespace Boosting

/-- A parser for one raw input line, as exposed by the external dataset:
on success it yields the feature vector, the target and the logged score. -/
abbrev RowParser := String → Option (List ℚ × ℚ × ℚ)

/-- `DataChunk` (Train.cpp lines 56-135): a batch of raw lines together with
the parse output, a pair of parallel sequences of feature vectors and targets. -/
structure DataChunk where
  lines : List String
  featureVectors : List (List ℚ)
  targets : List ℚ
deriving DecidableEq

/-- A freshly constructed chunk: all buffers empty. -/
def DataChunk.empty : DataChunk := ⟨[], [], []⟩

/-- `DataChunk::addLine` (lines 64-70): reject the empty string, otherwise
append to the line buffer; returns the accepted flag and the updated chunk. -/
def DataChunk.addLine (c : DataChunk) (s : String) : Bool × DataChunk :=
  if s.isEmpty then (false, c)
  else (true, { c with lines := c.lines ++ [s] })

/-- `DataChunk::getLineBufferSize` (lines 101-103). -/
def DataChunk.getLineBufferSize (c : DataChunk) : ℕ := c.lines.length

/-- `DataChunk::getSize` (lines 105-107). -/
def DataChunk.getSize (c : DataChunk) : ℕ := c.featureVectors.length

/-- `DataChunk::parseLines` (lines 72-84): for each buffered line, run the
external row parser; on success push the target and the feature vector, on
rejection skip the line silently. -/
def DataChunk.parseLines (getRow : RowParser) (c : DataChunk) : DataChunk :=
  c.lines.foldl
    (fun acc line =>
      match getRow line with
      | some (farr, target, _score) =>
          { acc with
            targets := acc.targets ++ [target],
            featureVectors := acc.featureVectors ++ [farr] }
      | none => acc)
    c

/-- The state of `addToDataSet`'s loop (lines 116-122): offer the pairs to
`addVector` in index order, return the index of the first refusal (the number
merged so far) or the total count when nothing is refused. -/
def addToDataSetLoop {σ : Type} (addVector : σ → List ℚ → ℚ → Bool × σ) :
    List (List ℚ × ℚ) → ℕ → σ → ℕ × σ
  | [], i, ds => (i, ds)
  | (fv, t) :: rest, i, ds =>
      match addVector ds fv t with
      | (true, ds2) => addToDataSetLoop addVector rest (i + 1) ds2
      | (false, ds2) => (i, ds2)

/-- `DataChunk::addToDataSet` (lines 111-124): the `CHECK` that the two parsed
sequences have equal length aborts the process on failure (modelled as `none`);
otherwise the pairs are offered to `dataSet->addVector` in index order and the
count successfully merged is returned together with the updated dataset. -/
def DataChunk.addToDataSet {σ : Type} (addVector : σ → List ℚ → ℚ → Bool × σ)
    (c : DataChunk) (ds : σ) : Option (ℕ × σ) :=
  if c.featureVectors.length = c.targets.length then
    some (addToDataSetLoop addVector (c.featureVectors.zip c.targets) 0 ds)
  else
    none

/-- The parse output a single parse pass appends: the successfully parsed rows
of the buffered lines, in order. -/
def parsedRows (getRow : RowParser) (lines : List String) :
    List (List ℚ × ℚ × ℚ) :=
  lines.filterMap getRow

theorem parseLines_eq (getRow : RowParser) (c : DataChunk) :
    c.parseLines getRow =
      { c with
        featureVectors :=
          c.featureVectors ++ (parsedRows getRow c.lines).map (fun r => r.1),
        targets :=
          c.targets ++ (parsedRows getRow c.lines).map (fun r => r.2.1) } := by
  suffices h : ∀ (ls : List String) (acc : DataChunk),
      ls.foldl
        (fun acc line =>
          match getRow line with
          | some (farr, target, _score) =>
              { acc with
                targets := acc.targets ++ [target],
                featureVectors := acc.featureVectors ++ [farr] }
          | none => acc)
        acc =
      { acc with
        featureVectors :=
          acc.featureVectors ++ (parsedRows getRow ls).map (fun r => r.1),
        targets :=
          acc.targets ++ (parsedRows getRow ls).map (fun r => r.2.1) } by
    exact h c.lines c
  intro ls
  induction ls with
  | nil => intro acc; simp [parsedRows]
  | cons l ls ih =>
      intro acc
      cases hrow : getRow l with
      | none => simp [List.foldl_cons, hrow, ih, parsedRows]
      | some r =>
          obtain ⟨fv, t, sc⟩ := r
          simp [List.foldl_cons, hrow, ih, parsedRows]

/-- Modelled from the spec: the `CounterMonitor` latch lives in
`Concurrency.h`, which is not under `src/`; per the spec it is a non-negative
counter — `init(n)` sets it to `n`, `decrement()` lowers it by one (never below
zero), and `wait()` returns exactly when the counter is zero. -/
structure CounterMonitor where
  count : ℕ
deriving DecidableEq

/-- Modelled from the spec: `init(n)` sets the count to `n`. -/
def CounterMonitor.init (n : ℕ) : CounterMonitor := ⟨n⟩

/-- Modelled from the spec: `decrement()` atomically lowers the count by one;
the count never goes negative. -/
def CounterMonitor.decrement (m : CounterMonitor) : CounterMonitor :=
  ⟨m.count - 1⟩

/-- Modelled from the spec: `wait()` suspends the caller until the count is
zero, so a blocked `wait()` returns exactly in the states satisfying this
predicate. -/
def CounterMonitor.waitReturns (m : CounterMonitor) : Prop := m.count = 0

instance (m : CounterMonitor) : Decidable m.waitReturns := by
  unfold CounterMonitor.waitReturns; infer_instance

/-- `DataChunk::run` (lines 86-91): a worker task parses the chunk and then
decrements the latch. -/
def DataChunk.run (getRow : RowParser) (c : DataChunk) (m : CounterMonitor) :
    DataChunk × CounterMonitor :=
  (c.parseLines getRow, m.decrement)

/-- Running a batch of chunk tasks to completion: each task parses its own
chunk and decrements the shared latch once (lines 86-91 and 161-166).  The
tasks touch no shared state besides the latch, so only their number matters. -/
def runTasks (getRow : RowParser) (chunks : List DataChunk)
    (m : CounterMonitor) : List DataChunk × CounterMonitor :=
  match chunks with
  | [] => ([], m)
  | c :: rest =>
      let (c2, m2) := c.run getRow m
      let (rest2, m3) := runTasks getRow rest m2
      (c2 :: rest2, m3)

/-- The line-reading loop of `readIntoDataChunks` (lines 147-155): feed each
line to the current chunk (the accepted flag is discarded by the source); once
the buffered count reaches `chunkSize`, seal the chunk and start a fresh one.
Returns the sealed chunks and the final current chunk. -/
def readLinesLoop (chunkSize : ℕ) :
    List String → List DataChunk → DataChunk → List DataChunk × DataChunk
  | [], chunks, cur => (chunks, cur)
  | line :: rest, chunks, cur =>
      let cur2 := (cur.addLine line).2
      if chunkSize ≤ cur2.getLineBufferSize then
        readLinesLoop chunkSize rest (chunks ++ [cur2]) DataChunk.empty
      else
        readLinesLoop chunkSize rest chunks cur2

/-- The chunking phase of `readIntoDataChunks` (lines 144-158): run the
line-reading loop from an empty state and seal the final partial chunk exactly
when it holds at least one line. -/
def sealChunks (stream : List String) (chunkSize : ℕ) : List DataChunk :=
  let (chunks, cur) := readLinesLoop chunkSize stream [] DataChunk.empty
  if 0 < cur.getLineBufferSize then chunks ++ [cur] else chunks

/-- The parallel parse path (lines 161-166), with the worker pool's scheduling
made explicit: `sched` lists the chunk indices in the order the pool completes
them; each completed task replaces its own chunk by its parsed version. -/
def runSchedule (getRow : RowParser) (sched : List ℕ)
    (chunks : List DataChunk) : List DataChunk :=
  sched.foldl
    (fun cs i => cs.set i ((cs.getD i DataChunk.empty).parseLines getRow))
    chunks

/-- `readIntoDataChunks` (lines 139-172): chunk the stream, then parse every
chunk — through the worker pool (under some completion schedule `sched`) when
`numThreads > 0` and there is at least one chunk, otherwise sequentially in
list order on the calling thread. -/
def readIntoDataChunks (getRow : RowParser) (stream : List String)
    (chunkSize numThreads : ℕ) (sched : List ℕ) : List DataChunk :=
  let chunks := sealChunks stream chunkSize
  if 0 < numThreads ∧ chunks ≠ [] then
    runSchedule getRow sched chunks
  else
    chunks.map (DataChunk.parseLines getRow)

/-- The per-file merge loop of the training driver (lines 244-246): call
`addToDataSet` on every chunk in original order, discarding the returned
count; a `CHECK` abort (`none`) stops the process. -/
def mergeAllChunks {σ : Type} (addVector : σ → List ℚ → ℚ → Bool × σ) :
    List DataChunk → σ → Option σ
  | [], ds => some ds
  | c :: rest, ds =>
      match c.addToDataSet addVector ds with
      | some (_, ds2) => mergeAllChunks addVector rest ds2
      | none => none

/-- Modelled from the spec: the least-squares loss accumulator (`GbmFun.h` is
not under `src/`).  Per the spec it keeps a running example count and a running
loss, updated monotonically by `accumulateExampleLoss(target, score)`. -/
structure LeastSquareFun where
  numExamples : ℕ := 0
  loss : ℚ := 0
deriving DecidableEq

/-- Modelled from the spec: one accumulation step — bump the example count and
add the squared error of the predicted score against the target. -/
def LeastSquareFun.accumulateExampleLoss (g : LeastSquareFun)
    (target score : ℚ) : LeastSquareFun :=
  { numExamples := g.numExamples + 1,
    loss := g.loss + (target - score) * (target - score) }

/-- Modelled from the spec: `getNumExamples`. -/
def LeastSquareFun.getNumExamples (g : LeastSquareFun) : ℕ := g.numExamples

/-- Modelled from the spec: `getLoss`. -/
def LeastSquareFun.getLoss (g : LeastSquareFun) : ℚ := g.loss

/-- A tree of the trained ensemble, abstracted (Tree.h is not under `src/`) to
the score contribution it adds for a given feature vector. -/
abbrev Tree := List ℚ → ℚ

/-- Modelled from the spec: `predictFull` — the full-ensemble prediction is the
sum of the per-tree contributions over the ordered tree list. -/
def predict (model : List Tree) (fvec : List ℚ) : ℚ :=
  (model.map (fun t => t fvec)).sum

/-- Helper for `predict_vec`: starting from the running score `f`, push the
incremental partial score after each further tree. -/
def predictVecAux (fvec : List ℚ) (f : ℚ) : List Tree → ℚ × List ℚ
  | [] => (f, [])
  | t :: ts =>
      let f2 := f + t fvec
      let (fN, rest) := predictVecAux fvec f2 ts
      (fN, f2 :: rest)

/-- Modelled from the spec: `predict_vec` — compute the prefix predictions
`f_1, ..., f_N` in one incremental pass (`f_k = f_(k-1) + contribution of tree
k`), fill the scores vector with them, and return the full prediction `f_N`. -/
def predict_vec (model : List Tree) (fvec : List ℚ) : ℚ × List ℚ :=
  predictVecAux fvec 0 model

/-- The state threaded through the test-evaluation loop of `main`
(lines 287-335): the locals `target`, `score`, `fvec` (out-parameters of
`getRow`, so they keep their previous values on a rejected line), the running
sums, the agreement counter, the primary accumulator (`fun` in the source,
named `lsfun` here because `fun` is reserved) and the per-tree-count
accumulators `funs`. -/
structure EvalState where
  target : ℚ := 0
  score : ℚ := 0
  fvec : List ℚ := []
  sumy : ℚ := 0
  sumy2 : ℚ := 0
  agreeCount : ℕ := 0
  lsfun : LeastSquareFun := {}
  funs : List LeastSquareFun := []
deriving DecidableEq

/-- The body of the test loop after the row parse (lines 310-326), given the
values held by `fvec`, `target` and `score` once `ds.getRow` has returned:
update the running sums, predict (densely when `find_optimal_num_trees` is
set, feeding every prefix accumulator), accumulate the primary loss, and bump
the agreement counter when the computed score is within `1e-5` of the logged
score. -/
def evalRow (model : List Tree) (findOptimalNumTrees : Bool) (st : EvalState)
    (fvec : List ℚ) (target score : ℚ) : EvalState :=
  let sumy := st.sumy + target
  let sumy2 := st.sumy2 + target * target
  let fAndFuns :=
    if findOptimalNumTrees then
      let (f, scores) := predict_vec model fvec
      (f, List.zipWith
            (fun g sc => g.accumulateExampleLoss target sc) st.funs scores)
    else
      (predict model fvec, st.funs)
  let lsfun := st.lsfun.accumulateExampleLoss target fAndFuns.1
  let agreeCount :=
    if |score - fAndFuns.1| ≤ 1 / 100000 then st.agreeCount + 1
    else st.agreeCount
  { target := target, score := score, fvec := fvec, sumy := sumy,
    sumy2 := sumy2, agreeCount := agreeCount, lsfun := lsfun,
    funs := fAndFuns.2 }

/-- One iteration of the test loop (lines 308-335): parse the line — the
source ignores `getRow`'s return value here, so on a rejected line the
out-parameters keep their previous values — then run the loop body. -/
def evalLine (getRow : RowParser) (model : List Tree)
    (findOptimalNumTrees : Bool) (st : EvalState) (line : String) :
    EvalState :=
  match getRow line with
  | some (fvec, target, score) =>
      evalRow model findOptimalNumTrees st fvec target score
  | none => evalRow model findOptimalNumTrees st st.fvec st.target st.score

/-- The whole test loop over one input stream. -/
def evalFile (getRow : RowParser) (model : List Tree)
    (findOptimalNumTrees : Bool) (st : EvalState) (stream : List String) :
    EvalState :=
  stream.foldl (evalLine getRow model findOptimalNumTrees) st

/-! ### Helper lemmas -/

theorem addLine_getLineBufferSize (c : DataChunk) (s : String) :
    ((c.addLine s).2).getLineBufferSize =
      if s.isEmpty then c.getLineBufferSize else c.getLineBufferSize + 1 := by
  by_cases h : s.isEmpty <;>
    simp [DataChunk.addLine, DataChunk.getLineBufferSize, h]

theorem parseLines_lines (getRow : RowParser) (c : DataChunk) :
    (c.parseLines getRow).lines = c.lines := by
  rw [parseLines_eq]

/-! ### C9: addLine -/

/-- C9: `addLine` rejects the empty string — returning `false` and leaving the
buffered line count unchanged — and otherwise appends the line and returns
`true`. -/
theorem addLine_spec :
    (∀ c : DataChunk,
      c.addLine ("") = (false, c) ∧
      ((c.addLine ("")).2).getLineBufferSize = c.getLineBufferSize) ∧
    (∀ (c : DataChunk) (s : String), s ≠ "" →
      c.addLine s = (true, { c with lines := c.lines ++ [s] })) := by
  have hemp : ("" : String).isEmpty = true := by decide
  refine ⟨fun c => ⟨?_, ?_⟩, fun c s hs => ?_⟩
  · simp [DataChunk.addLine, hemp]
  · simp [DataChunk.addLine, hemp]
  · simp [DataChunk.addLine, String.isEmpty_iff, hs]

/-- C9 witness: `addLine` at the concrete nonempty line `"a"`. -/
theorem addLine_spec_witness :
    ("a" : String) ≠ "" ∧
      DataChunk.empty.addLine ("a") =
        (true, { DataChunk.empty with lines := [("a" : String)] }) :=
  ⟨by decide, addLine_spec.2 DataChunk.empty ("a") (by decide)⟩

/-! ### C6: post-parse invariant -/

/-- C6: after `parseLines` completes on a freshly filled chunk, the number of
feature vectors equals the number of targets, and both are at most the number
of buffered lines. -/
theorem parseLines_invariant (getRow : RowParser) (lines : List String) :
    ((DataChunk.mk lines [] []).parseLines getRow).featureVectors.length =
      ((DataChunk.mk lines [] []).parseLines getRow).targets.length ∧
    ((DataChunk.mk lines [] []).parseLines getRow).featureVectors.length ≤
      ((DataChunk.mk lines [] []).parseLines getRow).lines.length := by
  rw [parseLines_eq]
  refine ⟨by simp, ?_⟩
  simpa [parsedRows] using List.length_filterMap_le getRow lines

/-! ### C2: handling of malformed rows -/

/-- C2 counterexample: with a row parser that rejects every line, evaluating
the single rejected test line `"bad"` still accumulates a statistic — the
primary accumulator's example count rises from 0 to 1 — contradicting the
claim that the evaluator accumulates no statistics for a rejected test line. -/
theorem malformed_eval_counterexample :
    (fun _ : String => (none : Option (List ℚ × ℚ × ℚ))) ("bad") = none ∧
    (evalLine (fun _ => none) [] false {} ("bad")).lsfun.getNumExamples = 1 ∧
    ¬ ((evalLine (fun _ => none) [] false {} ("bad")).lsfun.getNumExamples =
        ({} : EvalState).lsfun.getNumExamples) := by
  refine ⟨rfl, by decide, by decide⟩

/-- C2 (amended): a line the row parser rejects is silently dropped during
chunk parsing — it contributes nothing to the parsed feature vectors or
targets — but in the evaluation loop the rejection is ignored (the parser's
return value is not checked): the evaluator still runs the loop body and
accumulates statistics for the rejected line, reusing the previous row's
out-parameter values; no error is reported and no retry occurs in either
place. -/
theorem malformed_row_handling :
    (∀ (getRow : RowParser) (l1 l2 : List String) (bad : String)
        (fvs : List (List ℚ)) (tgs : List ℚ),
      getRow bad = none →
      ((DataChunk.mk (l1 ++ bad :: l2) fvs tgs).parseLines getRow).featureVectors =
        ((DataChunk.mk (l1 ++ l2) fvs tgs).parseLines getRow).featureVectors ∧
      ((DataChunk.mk (l1 ++ bad :: l2) fvs tgs).parseLines getRow).targets =
        ((DataChunk.mk (l1 ++ l2) fvs tgs).parseLines getRow).targets) ∧
    (∀ (getRow : RowParser) (model : List Tree) (fot : Bool)
        (st : EvalState) (line : String),
      getRow line = none →
      evalLine getRow model fot st line =
        evalRow model fot st st.fvec st.target st.score ∧
      (evalLine getRow model fot st line).lsfun.getNumExamples =
        st.lsfun.getNumExamples + 1) := by
  constructor
  · intro getRow l1 l2 bad fvs tgs hbad
    rw [parseLines_eq, parseLines_eq]
    simp [parsedRows, List.filterMap_append, hbad]
  · intro getRow model fot st line hline
    refine ⟨by simp [evalLine, hline], ?_⟩
    simp [evalLine, hline, evalRow, LeastSquareFun.accumulateExampleLoss,
      LeastSquareFun.getNumExamples]

/-- C2 witness: the amended statement applied at a concrete rejected line. -/
theorem malformed_row_handling_witness :
    (fun _ : String => (none : Option (List ℚ × ℚ × ℚ))) ("bad") = none ∧
    (((DataChunk.mk [("bad" : String)] [] []).parseLines
        (fun _ => none)).featureVectors =
      ((DataChunk.mk ([] : List String) [] []).parseLines
        (fun _ => none)).featureVectors ∧
     ((DataChunk.mk [("bad" : String)] [] []).parseLines
        (fun _ => none)).targets =
      ((DataChunk.mk ([] : List String) [] []).parseLines
        (fun _ => none)).targets) :=
  ⟨rfl, by
    have h := (malformed_row_handling.1) (fun _ => none) [] [] ("bad") [] []
      rfl
    simpa using h⟩

/-! ### C3: addToDataSet / mergeInto -/

/-- The dataset state after offering a list of pairs to `addVector` in order,
keeping each returned state. -/
def addAllState {σ : Type} (addVector : σ → List ℚ → ℚ → Bool × σ)
    (pairs : List (List ℚ × ℚ)) (ds : σ) : σ :=
  pairs.foldl (fun d p => (addVector d p.1 p.2).2) ds

theorem addToDataSetLoop_accepted {σ : Type}
    (av : σ → List ℚ → ℚ → Bool × σ) :
    ∀ (pairs : List (List ℚ × ℚ)) (i : ℕ) (ds : σ),
      (∀ j, j < pairs.length →
        (av (addAllState av (pairs.take j) ds) (pairs.getD j ([], 0)).1
            (pairs.getD j ([], 0)).2).1 = true) →
      addToDataSetLoop av pairs i ds =
        (i + pairs.length, addAllState av pairs ds) := by
  intro pairs
  induction pairs with
  | nil => intro i ds _; simp [addToDataSetLoop, addAllState]
  | cons p rest ih =>
      intro i ds h
      obtain ⟨fv, t⟩ := p
      have h0 := h 0 (by simp)
      simp only [List.take_zero, List.getD_cons_zero, addAllState,
        List.foldl_nil] at h0
      rcases hav : av ds fv t with ⟨b, ds2⟩
      rw [hav] at h0
      subst h0
      have hrest : ∀ j, j < rest.length →
          (av (addAllState av (rest.take j) ds2) (rest.getD j ([], 0)).1
              (rest.getD j ([], 0)).2).1 = true := by
        intro j hj
        have := h (j + 1) (by simpa using Nat.succ_lt_succ hj)
        simpa [addAllState, List.take_succ_cons, hav] using this
      rw [show addToDataSetLoop av ((fv, t) :: rest) i ds =
            addToDataSetLoop av rest (i + 1) ds2 by
          simp [addToDataSetLoop, hav]]
      rw [ih (i + 1) ds2 hrest]
      simp [addAllState, hav, Nat.add_assoc, Nat.add_comm 1 rest.length]

theorem addToDataSetLoop_refused {σ : Type}
    (av : σ → List ℚ → ℚ → Bool × σ) :
    ∀ (j : ℕ) (pairs : List (List ℚ × ℚ)) (i : ℕ) (ds : σ),
      j < pairs.length →
      (∀ j2, j2 < j →
        (av (addAllState av (pairs.take j2) ds) (pairs.getD j2 ([], 0)).1
            (pairs.getD j2 ([], 0)).2).1 = true) →
      (av (addAllState av (pairs.take j) ds) (pairs.getD j ([], 0)).1
          (pairs.getD j ([], 0)).2).1 = false →
      addToDataSetLoop av pairs i ds =
        (i + j,
          (av (addAllState av (pairs.take j) ds) (pairs.getD j ([], 0)).1
              (pairs.getD j ([], 0)).2).2) := by
  intro j
  induction j with
  | zero =>
      intro pairs i ds hj _ hfail
      match pairs, hj with
      | (fv, t) :: rest, _ =>
          simp only [List.take_zero, List.getD_cons_zero, addAllState,
            List.foldl_nil] at hfail ⊢
          rcases hav : av ds fv t with ⟨b, ds2⟩
          rw [hav] at hfail
          subst hfail
          simp [addToDataSetLoop, hav]
  | succ j ih =>
      intro pairs i ds hj hacc hfail
      match pairs, hj with
      | (fv, t) :: rest, hj =>
          have h0 := hacc 0 (Nat.succ_pos j)
          simp only [List.take_zero, List.getD_cons_zero, addAllState,
            List.foldl_nil] at h0
          rcases hav : av ds fv t with ⟨b, ds2⟩
          rw [hav] at h0
          subst h0
          have hrest : ∀ j2, j2 < j →
              (av (addAllState av (rest.take j2) ds2)
                  (rest.getD j2 ([], 0)).1 (rest.getD j2 ([], 0)).2).1 =
                true := by
            intro j2 hj2
            have := hacc (j2 + 1) (Nat.succ_lt_succ hj2)
            simpa [addAllState, List.take_succ_cons, hav] using this
          have hfail2 :
              (av (addAllState av (rest.take j) ds2) (rest.getD j ([], 0)).1
                  (rest.getD j ([], 0)).2).1 = false := by
            simpa [addAllState, List.take_succ_cons, hav] using hfail
          rw [show addToDataSetLoop av ((fv, t) :: rest) i ds =
                addToDataSetLoop av rest (i + 1) ds2 by
              simp [addToDataSetLoop, hav]]
          rw [ih rest (i + 1) ds2 (Nat.lt_of_succ_lt_succ hj) hrest hfail2]
          refine Prod.ext_iff.mpr ⟨?_, ?_⟩
          · simp only []
            omega
          · simp [addAllState, List.take_succ_cons, hav]

/-- C3: `addToDataSet` (the spec's `mergeInto`) offers the parsed
(featureVector, target) pairs to `dataset.addVector` in index order; when
every offer up to the end is accepted it returns the full parsed count
(`getSize`) and the dataset state after all appends, and when the offers up to
index `j` are accepted but the one at `j` is refused it stops there and
returns `j`, the number of pairs successfully merged. -/
theorem mergeInto_spec {σ : Type} (av : σ → List ℚ → ℚ → Bool × σ)
    (c : DataChunk) (ds : σ)
    (hc : c.featureVectors.length = c.targets.length) :
    ((∀ j, j < (c.featureVectors.zip c.targets).length →
        (av (addAllState av ((c.featureVectors.zip c.targets).take j) ds)
            ((c.featureVectors.zip c.targets).getD j ([], 0)).1
            ((c.featureVectors.zip c.targets).getD j ([], 0)).2).1 = true) →
      c.addToDataSet av ds =
        some (c.getSize,
          addAllState av (c.featureVectors.zip c.targets) ds)) ∧
    (∀ j, j < (c.featureVectors.zip c.targets).length →
      (∀ j2, j2 < j →
        (av (addAllState av ((c.featureVectors.zip c.targets).take j2) ds)
            ((c.featureVectors.zip c.targets).getD j2 ([], 0)).1
            ((c.featureVectors.zip c.targets).getD j2 ([], 0)).2).1 =
          true) →
      (av (addAllState av ((c.featureVectors.zip c.targets).take j) ds)
          ((c.featureVectors.zip c.targets).getD j ([], 0)).1
          ((c.featureVectors.zip c.targets).getD j ([], 0)).2).1 = false →
      c.addToDataSet av ds =
        some (j,
          (av (addAllState av ((c.featureVectors.zip c.targets).take j) ds)
              ((c.featureVectors.zip c.targets).getD j ([], 0)).1
              ((c.featureVectors.zip c.targets).getD j ([], 0)).2).2)) := by
  have hlen : (c.featureVectors.zip c.targets).length = c.getSize := by
    simp [DataChunk.getSize, List.length_zip, hc]
  constructor
  · intro hall
    rw [DataChunk.addToDataSet, if_pos hc,
      addToDataSetLoop_accepted av _ 0 ds hall, hlen]
    simp
  · intro j hj hacc hfail
    rw [DataChunk.addToDataSet, if_pos hc,
      addToDataSetLoop_refused av j _ 0 ds hj hacc hfail]
    simp

/-- A concrete dataset used by witnesses: a list of accepted rows together
with an attempt counter; the third offer (attempt index 2) is refused, every
other offer is accepted. -/
def capAdd : List (List ℚ × ℚ) × ℕ → List ℚ → ℚ → Bool × (List (List ℚ × ℚ) × ℕ) :=
  fun ds fv t =>
    if ds.2 = 2 then (false, (ds.1, ds.2 + 1))
    else (true, (ds.1 ++ [(fv, t)], ds.2 + 1))

/-- A concrete parsed chunk with five rows. -/
def chunkA : DataChunk := ⟨[], [[1], [2], [3], [4], [5]], [1, 2, 3, 4, 5]⟩

/-- A concrete parsed chunk with two rows. -/
def chunkB : DataChunk := ⟨[], [[10], [11]], [10, 11]⟩

/-- C3 witness: against `capAdd`, which refuses the 3rd of `chunkA`'s 5 parsed
rows, `addToDataSet` returns 2. -/
theorem mergeInto_spec_witness :
    chunkA.featureVectors.length = chunkA.targets.length ∧
    chunkA.addToDataSet capAdd (([], 0) : List (List ℚ × ℚ) × ℕ) =
      some (2, ([([1], 1), ([2], 2)], 3)) := by
  refine ⟨by decide, ?_⟩
  have h := (mergeInto_spec capAdd chunkA (([], 0) : List (List ℚ × ℚ) × ℕ)
      (by decide)).2 2 (by decide) (by decide) (by decide)
  rw [h]
  decide

/-! ### C7: the driver's merge loop discards the merge count -/

/-- C7: the training driver's per-file merge loop discards the count returned
by `addToDataSet`: even when a refusal truncated the merge of a chunk (the
returned count is below the chunk's parsed size), the loop goes on to call
`addToDataSet` on every remaining chunk, in original order, instead of
stopping at the first partial merge. -/
theorem merge_loop_continues {σ : Type} (av : σ → List ℚ → ℚ → Bool × σ)
    (c : DataChunk) (rest : List DataChunk) (ds ds2 : σ) (k : ℕ)
    (hmerge : c.addToDataSet av ds = some (k, ds2))
    (_htrunc : k < c.getSize) :
    mergeAllChunks av (c :: rest) ds = mergeAllChunks av rest ds2 := by
  simp [mergeAllChunks, hmerge]

/-- C7 witness: `capAdd` truncates the merge of `chunkA` at 2 of 5 rows, yet
the loop still merges `chunkB` afterwards — its two rows land in the final
dataset. -/
theorem merge_loop_continues_witness :
    chunkA.addToDataSet capAdd (([], 0) : List (List ℚ × ℚ) × ℕ) =
      some (2, ([([1], 1), ([2], 2)], 3)) ∧
    2 < chunkA.getSize ∧
    mergeAllChunks capAdd [chunkA, chunkB]
        (([], 0) : List (List ℚ × ℚ) × ℕ) =
      mergeAllChunks capAdd [chunkB] ([([1], 1), ([2], 2)], 3) ∧
    mergeAllChunks capAdd [chunkA, chunkB]
        (([], 0) : List (List ℚ × ℚ) × ℕ) =
      some ([([1], 1), ([2], 2), ([10], 10), ([11], 11)], 5) := by
  refine ⟨by decide, by decide, ?_, by decide⟩
  exact merge_loop_continues capAdd chunkA [chunkB] _ _ 2 (by decide)
    (by decide)

/-! ### C10: the CounterMonitor latch -/

theorem runTasks_monitor (getRow : RowParser) :
    ∀ (chunks : List DataChunk) (m : CounterMonitor),
      (runTasks getRow chunks m).2 = ⟨m.count - chunks.length⟩ := by
  intro chunks
  induction chunks with
  | nil => intro m; simp [runTasks]
  | cons c rest ih =>
      intro m
      simp only [runTasks, DataChunk.run, ih]
      congr 1
      simp [CounterMonitor.decrement]
      omega

/-- C10: for the latch used by the ingestion orchestrator, after `init n` a
blocked `wait` returns exactly when `n` worker tasks (each decrementing once
on completion) have run, and not before — only the number of completed tasks
matters, not their scheduling — and after `init 0` the wait condition already
holds, so `wait` returns immediately. -/
theorem latch_spec (getRow : RowParser) :
    (∀ (n : ℕ) (chunks : List DataChunk), chunks.length ≤ n →
      ((runTasks getRow chunks (CounterMonitor.init n)).2.waitReturns ↔
        chunks.length = n)) ∧
    (CounterMonitor.init 0).waitReturns := by
  constructor
  · intro n chunks hle
    rw [runTasks_monitor]
    unfold CounterMonitor.waitReturns CounterMonitor.init
    simp only []
    omega
  · rfl

/-- C10 witness: two tasks against a latch initialized to 2. -/
theorem latch_spec_witness :
    [chunkA, chunkB].length ≤ 2 ∧
      ((runTasks (fun _ => none) [chunkA, chunkB]
          (CounterMonitor.init 2)).2.waitReturns ↔
        [chunkA, chunkB].length = 2) :=
  ⟨by decide, (latch_spec (fun _ => none)).1 2 [chunkA, chunkB] (by decide)⟩

/-! ### C1: parallel and sequential parsing agree -/

theorem runSchedule_of_perm (getRow : RowParser) :
    ∀ (sched : List ℕ) (orig cs : List DataChunk),
      sched.Nodup →
      (∀ i ∈ sched, i < orig.length) →
      cs.length = orig.length →
      (∀ j, j < orig.length →
        cs.getD j DataChunk.empty =
          if j ∈ sched then orig.getD j DataChunk.empty
          else (orig.getD j DataChunk.empty).parseLines getRow) →
      runSchedule getRow sched cs =
        orig.map (DataChunk.parseLines getRow) := by
  intro sched
  induction sched with
  | nil =>
      intro orig cs _ _ hlen hinv
      unfold runSchedule
      simp only [List.foldl_nil]
      apply List.ext_getElem (by simp [hlen])
      intro n h1 h2
      have hn : n < orig.length := hlen ▸ h1
      have hcs := hinv n hn
      simp only [List.not_mem_nil, if_false] at hcs
      have e1 : cs[n] =
          (orig.getD n DataChunk.empty).parseLines getRow := by
        rw [← List.getD_eq_getElem cs DataChunk.empty h1]
        exact hcs
      rw [e1, List.getD_eq_getElem orig DataChunk.empty hn]
      simp
  | cons i sched ih =>
      intro orig cs hnd hmem hlen hinv
      have hi : i < orig.length := hmem i (by simp)
      have hics : i < cs.length := by rw [hlen]; exact hi
      have hcur : cs.getD i DataChunk.empty = orig.getD i DataChunk.empty := by
        have := hinv i hi
        simpa using this
      have hstep : runSchedule getRow (i :: sched) cs =
          runSchedule getRow sched
            (cs.set i ((cs.getD i DataChunk.empty).parseLines getRow)) := by
        rw [runSchedule, runSchedule, List.foldl_cons]
      rw [hstep, hcur]
      apply ih orig _ (List.Nodup.of_cons hnd)
        (fun j hj => hmem j (List.mem_cons_of_mem i hj))
        (by rw [List.length_set, hlen])
      intro j hj
      have hjcs : j < cs.length := by rw [hlen]; exact hj
      have hjset : j <
          (cs.set i ((orig.getD i DataChunk.empty).parseLines getRow)).length := by
        rw [List.length_set]; exact hjcs
      rw [List.getD_eq_getElem _ DataChunk.empty hjset, List.getElem_set]
      by_cases hji : j = i
      · subst hji
        have hjns : j ∉ sched := (List.nodup_cons.mp hnd).1
        simp [hjns]
      · rw [if_neg (fun h => hji h.symm),
          ← List.getD_eq_getElem cs DataChunk.empty hjcs, hinv j hj]
        by_cases hjm : j ∈ sched
        · rw [if_pos hjm, if_pos (List.mem_cons_of_mem i hjm)]
        · rw [if_neg hjm, if_neg (by simp [List.mem_cons, hji, hjm])]

/-- C1: for every input stream and chunk size, the chunk list produced by
`readIntoDataChunks` is the same whether the worker count is 0 (sequential
parse path) or positive (parallel parse path, under any order in which the
pool completes the chunk tasks), and hence the dataset produced by the
sequential merge of that list is also the same — parallelism changes only
scheduling, never the parsed feature vectors, targets, or their order. -/
theorem parallel_sequential_equiv (getRow : RowParser) (stream : List String)
    (chunkSize numThreads : ℕ) (sched : List ℕ)
    (hnt : 0 < numThreads)
    (hsched : sched.Perm (List.range (sealChunks stream chunkSize).length)) :
    readIntoDataChunks getRow stream chunkSize numThreads sched =
      readIntoDataChunks getRow stream chunkSize 0 [] ∧
    ∀ (σ : Type) (av : σ → List ℚ → ℚ → Bool × σ) (ds : σ),
      mergeAllChunks av
          (readIntoDataChunks getRow stream chunkSize numThreads sched) ds =
        mergeAllChunks av
          (readIntoDataChunks getRow stream chunkSize 0 []) ds := by
  have hmain : readIntoDataChunks getRow stream chunkSize numThreads sched =
      readIntoDataChunks getRow stream chunkSize 0 [] := by
    unfold readIntoDataChunks
    by_cases hempty : sealChunks stream chunkSize = []
    · simp [hempty]
    · rw [if_pos ⟨hnt, hempty⟩, if_neg (by simp)]
      apply runSchedule_of_perm getRow sched (sealChunks stream chunkSize)
      · exact hsched.nodup_iff.mpr (List.nodup_range _)
      · intro i hi
        have : i ∈ List.range (sealChunks stream chunkSize).length :=
          hsched.mem_iff.mp hi
        simpa using this
      · rfl
      · intro j hj
        have : j ∈ sched := hsched.mem_iff.mpr (by simpa using hj)
        simp [this]
  exact ⟨hmain, fun σ av ds => by rw [hmain]⟩

/-- C1 witness: a three-chunk stream parsed under the out-of-order completion
schedule `[2, 0, 1]` with one worker equals the sequential parse. -/
theorem parallel_sequential_equiv_witness :
    (0 < 1 ∧
      [2, 0, 1].Perm
        (List.range (sealChunks [("a" : String), "b", "c"] 1).length)) ∧
    readIntoDataChunks
        (fun s => if s = ("a" : String) then some ([1], 1, 1) else none)
        [("a" : String), "b", "c"] 1 1 [2, 0, 1] =
      readIntoDataChunks
        (fun s => if s = ("a" : String) then some ([1], 1, 1) else none)
        [("a" : String), "b", "c"] 1 0 [] :=
  ⟨⟨by decide, by decide⟩,
    (parallel_sequential_equiv
      (fun s => if s = ("a" : String) then some ([1], 1, 1) else none)
      [("a" : String), "b", "c"] 1 1 [2, 0, 1] (by decide) (by decide)).1⟩

/-! ### C5: chunk boundaries -/

theorem readLinesLoop_invariant (chunkSize : ℕ) (hc : 0 < chunkSize) :
    ∀ (stream : List String) (chunks : List DataChunk) (cur : DataChunk),
      (∀ ch ∈ chunks, ch.getLineBufferSize = chunkSize) →
      cur.getLineBufferSize < chunkSize →
      (∀ ch ∈ (readLinesLoop chunkSize stream chunks cur).1,
        ch.getLineBufferSize = chunkSize) ∧
      (readLinesLoop chunkSize stream chunks cur).2.getLineBufferSize <
        chunkSize := by
  intro stream
  induction stream with
  | nil =>
      intro chunks cur hchunks hcur
      exact ⟨hchunks, hcur⟩
  | cons line rest ih =>
      intro chunks cur hchunks hcur
      have hlen : ((cur.addLine line).2).getLineBufferSize ≤
          cur.getLineBufferSize + 1 := by
        rw [addLine_getLineBufferSize]
        by_cases he : line.isEmpty <;> simp [he]
      simp only [readLinesLoop]
      by_cases hfull : chunkSize ≤ ((cur.addLine line).2).getLineBufferSize
      · rw [if_pos hfull]
        apply ih
        · intro ch hch
          rcases List.mem_append.mp hch with hch | hch
          · exact hchunks ch hch
          · have : ch = (cur.addLine line).2 := by simpa using hch
            subst this
            omega
        · simpa [DataChunk.empty, DataChunk.getLineBufferSize] using hc
      · rw [if_neg hfull]
        exact ih chunks _ hchunks (by omega)

theorem sealChunks_sizes (stream : List String) (chunkSize : ℕ)
    (hc : 0 < chunkSize) :
    (∀ ch ∈ (sealChunks stream chunkSize).dropLast,
      ch.getLineBufferSize = chunkSize) ∧
    (∀ ch ∈ sealChunks stream chunkSize,
      0 < ch.getLineBufferSize ∧ ch.getLineBufferSize ≤ chunkSize) := by
  obtain ⟨hfull, hlast⟩ := readLinesLoop_invariant chunkSize hc stream []
    DataChunk.empty (by simp)
    (by simpa [DataChunk.empty, DataChunk.getLineBufferSize] using hc)
  rcases he : readLinesLoop chunkSize stream [] DataChunk.empty with ⟨chunks, cur⟩
  rw [he] at hfull hlast
  simp only at hfull hlast
  unfold sealChunks
  rw [he]
  simp only
  by_cases hne : 0 < cur.getLineBufferSize
  · rw [if_pos hne, List.dropLast_concat]
    refine ⟨hfull, ?_⟩
    intro ch hch
    rcases List.mem_append.mp hch with hch | hch
    · have := hfull ch hch
      omega
    · have : ch = cur := by simpa using hch
      subst this
      omega
  · rw [if_neg hne]
    constructor
    · intro ch hch
      exact hfull ch (List.dropLast_sublist chunks |>.subset hch)
    · intro ch hch
      have := hfull ch hch
      omega

theorem readLinesLoop_fill (chunkSize : ℕ) (s : String)
    (hs : s.isEmpty = false) :
    ∀ (k m : ℕ) (chunks : List DataChunk) (cur : DataChunk),
      0 < k → cur.getLineBufferSize + k = chunkSize →
      readLinesLoop chunkSize (List.replicate (k + m) s) chunks cur =
        readLinesLoop chunkSize (List.replicate m s)
          (chunks ++ [{ cur with lines := cur.lines ++ List.replicate k s }])
          DataChunk.empty := by
  intro k
  induction k with
  | zero => intro m chunks cur h0; omega
  | succ k ih =>
      intro m chunks cur _ hsum
      have hrep : List.replicate (k + 1 + m) s = s :: List.replicate (k + m) s := by
        rw [show k + 1 + m = k + m + 1 by omega, List.replicate_succ]
      have hadd : (cur.addLine s).2 = { cur with lines := cur.lines ++ [s] } := by
        simp [DataChunk.addLine, hs]
      have hlen2 : ((cur.addLine s).2).getLineBufferSize =
          cur.getLineBufferSize + 1 := by
        rw [addLine_getLineBufferSize]
        simp [hs]
      rw [hrep]
      simp only [readLinesLoop]
      rcases Nat.eq_zero_or_pos k with hk0 | hkpos
      · subst hk0
        rw [if_pos (by omega)]
        rw [hadd]
        norm_num
      · rw [if_neg (by omega)]
        rw [ih m chunks ((cur.addLine s).2) hkpos (by omega)]
        rw [hadd]
        simp only []
        congr 3
        rw [List.append_assoc, List.replicate_succ]
        rfl

theorem readLinesLoop_leftover (chunkSize : ℕ) (s : String)
    (hs : s.isEmpty = false) :
    ∀ (m : ℕ) (chunks : List DataChunk) (cur : DataChunk),
      cur.getLineBufferSize + m < chunkSize →
      readLinesLoop chunkSize (List.replicate m s) chunks cur =
        (chunks, { cur with lines := cur.lines ++ List.replicate m s }) := by
  intro m
  induction m with
  | zero => intro chunks cur _; simp [readLinesLoop]
  | succ m ih =>
      intro chunks cur hlt
      have hadd : (cur.addLine s).2 = { cur with lines := cur.lines ++ [s] } := by
        simp [DataChunk.addLine, hs]
      have hlen2 : ((cur.addLine s).2).getLineBufferSize =
          cur.getLineBufferSize + 1 := by
        rw [addLine_getLineBufferSize]
        simp [hs]
      rw [List.replicate_succ]
      simp only [readLinesLoop]
      rw [if_neg (by omega)]
      rw [ih chunks ((cur.addLine s).2) (by omega)]
      rw [hadd]
      simp [List.append_assoc, List.replicate_succ]

theorem sealChunks_instance_6000 :
    (sealChunks (List.replicate 6000 ("x")) 2500).map
      DataChunk.getLineBufferSize = [2500, 2500, 1000] := by
  have hs : ("x" : String).isEmpty = false := by decide
  have hsize : ∀ n : ℕ,
      (DataChunk.mk (List.replicate n ("x")) [] []).getLineBufferSize = n := by
    intro n
    simp [DataChunk.getLineBufferSize]
  have s1 : readLinesLoop 2500 (List.replicate 6000 ("x")) [] DataChunk.empty =
      readLinesLoop 2500 (List.replicate 3500 ("x"))
        [DataChunk.mk (List.replicate 2500 ("x")) [] []] DataChunk.empty := by
    rw [show (6000 : ℕ) = 2500 + 3500 by norm_num]
    rw [readLinesLoop_fill 2500 ("x") hs 2500 3500 [] DataChunk.empty
      (by norm_num)
      (by simp [DataChunk.empty, DataChunk.getLineBufferSize])]
    rfl
  have s2 : readLinesLoop 2500 (List.replicate 3500 ("x"))
      [DataChunk.mk (List.replicate 2500 ("x")) [] []] DataChunk.empty =
      readLinesLoop 2500 (List.replicate 1000 ("x"))
        [DataChunk.mk (List.replicate 2500 ("x")) [] [],
         DataChunk.mk (List.replicate 2500 ("x")) [] []] DataChunk.empty := by
    rw [show (3500 : ℕ) = 2500 + 1000 by norm_num]
    rw [readLinesLoop_fill 2500 ("x") hs 2500 1000 _ DataChunk.empty
      (by norm_num)
      (by simp [DataChunk.empty, DataChunk.getLineBufferSize])]
    rfl
  have s3 : readLinesLoop 2500 (List.replicate 1000 ("x"))
      [DataChunk.mk (List.replicate 2500 ("x")) [] [],
       DataChunk.mk (List.replicate 2500 ("x")) [] []] DataChunk.empty =
      ([DataChunk.mk (List.replicate 2500 ("x")) [] [],
        DataChunk.mk (List.replicate 2500 ("x")) [] []],
       DataChunk.mk (List.replicate 1000 ("x")) [] []) := by
    rw [readLinesLoop_leftover 2500 ("x") hs 1000 _ DataChunk.empty
      (by simp [DataChunk.empty, DataChunk.getLineBufferSize])]
    rfl
  have hfinal : sealChunks (List.replicate 6000 ("x")) 2500 =
      [DataChunk.mk (List.replicate 2500 ("x")) [] [],
       DataChunk.mk (List.replicate 2500 ("x")) [] [],
       DataChunk.mk (List.replicate 1000 ("x")) [] []] := by
    unfold sealChunks
    rw [s1, s2, s3]
    simp only [hsize]
    norm_num
  rw [hfinal]
  simp only [List.map_cons, List.map_nil, hsize]

/-- C5: for every input stream and positive chunk size, the reader seals a
chunk exactly when its buffered line count reaches `chunkSize` — so every
sealed chunk except possibly the last holds exactly `chunkSize` lines, and
every sealed chunk (the final partial one included) holds at least one line
and at most `chunkSize` — and a stream of 6000 non-empty lines with
`chunkSize = 2500` yields exactly three chunks of buffered sizes 2500, 2500,
1000 in that order. -/
theorem chunking_spec :
    (∀ (stream : List String) (chunkSize : ℕ), 0 < chunkSize →
      (∀ ch ∈ (sealChunks stream chunkSize).dropLast,
        ch.getLineBufferSize = chunkSize) ∧
      (∀ ch ∈ sealChunks stream chunkSize,
        0 < ch.getLineBufferSize ∧ ch.getLineBufferSize ≤ chunkSize)) ∧
    (sealChunks (List.replicate 6000 ("x")) 2500).map
      DataChunk.getLineBufferSize = [2500, 2500, 1000] :=
  ⟨fun stream chunkSize hc => sealChunks_sizes stream chunkSize hc,
    sealChunks_instance_6000⟩

/-- C5 witness: the boundary property at a concrete three-line stream with
chunk size 2 — the single non-final chunk holds exactly 2 lines and the final
partial chunk holds 1 line. -/
theorem chunking_spec_witness :
    0 < 2 ∧
    (DataChunk.mk [("a" : String), "b"] [] []).getLineBufferSize = 2 ∧
    (0 < (DataChunk.mk [("c" : String)] [] []).getLineBufferSize ∧
      (DataChunk.mk [("c" : String)] [] []).getLineBufferSize ≤ 2) :=
  ⟨by decide,
    (chunking_spec.1 [("a" : String), "b", "c"] 2 (by decide)).1
      (DataChunk.mk [("a" : String), "b"] [] []) (by decide),
    (chunking_spec.1 [("a" : String), "b", "c"] 2 (by decide)).2
      (DataChunk.mk [("c" : String)] [] []) (by decide)⟩

/-! ### C4: prefix predictions in optimal-tree-count mode -/

theorem predictVecAux_eq (fvec : List ℚ) :
    ∀ (ts : List Tree) (f : ℚ),
      predictVecAux fvec f ts =
        (f + predict ts fvec,
          (List.range ts.length).map
            (fun i => f + predict (ts.take (i + 1)) fvec)) := by
  intro ts
  induction ts with
  | nil => intro f; simp [predictVecAux, predict]
  | cons t ts ih =>
      intro f
      simp only [predictVecAux, ih (f + t fvec)]
      refine Prod.ext_iff.mpr ⟨?_, ?_⟩
      · simp [predict]
        ring
      · simp only [List.length_cons, List.range_succ_eq_map, List.map_cons,
          List.map_map]
        refine List.cons_eq_cons.mpr ⟨?_, ?_⟩
        · simp [predict]
        · apply List.map_congr_left
          intro i _
          simp [Function.comp, List.take_succ_cons, predict]
          ring

theorem predict_vec_eq (model : List Tree) (fvec : List ℚ) :
    predict_vec model fvec =
      (predict model fvec,
        (List.range model.length).map
          (fun i => predict (model.take (i + 1)) fvec)) := by
  have h := predictVecAux_eq fvec model 0
  simpa [predict_vec] using h

/-- C4: on an accepted test row, optimal-tree-count mode feeds every prefix
accumulator in one pass — the accumulator at index `k` receives the target
paired with the prediction of the prefix of the first `k + 1` trees — and the
primary accumulator still receives `f_N`, which equals the full-ensemble
prediction; with the mode disabled only the single full-ensemble prediction is
computed and accumulated, and the prefix accumulators are untouched. -/
theorem optimal_num_trees_eval (getRow : RowParser) (model : List Tree)
    (st : EvalState) (line : String) (fv : List ℚ) (t sc : ℚ)
    (hrow : getRow line = some (fv, t, sc))
    (hlen : st.funs.length = model.length) :
    (evalLine getRow model true st line).funs =
      List.zipWith
        (fun g k =>
          LeastSquareFun.accumulateExampleLoss g t
            (predict (model.take (k + 1)) fv))
        st.funs (List.range model.length) ∧
    (evalLine getRow model true st line).funs.length = model.length ∧
    (evalLine getRow model true st line).lsfun =
      st.lsfun.accumulateExampleLoss t (predict model fv) ∧
    (evalLine getRow model false st line).lsfun =
      st.lsfun.accumulateExampleLoss t (predict model fv) ∧
    (evalLine getRow model false st line).funs = st.funs := by
  refine ⟨?_, ?_, ?_, ?_, ?_⟩ <;>
    simp [evalLine, hrow, evalRow, predict_vec_eq, List.zipWith_map_right,
      List.length_zipWith, hlen]

/-- A concrete one-tree ensemble used by the evaluation witnesses. -/
def treeOne : Tree := fun _ => 1

/-- The one-tree model list. -/
def modelOne : List Tree := [treeOne]

/-- A concrete row parser accepting any line with features `[0]`, target 1 and
logged score 1. -/
def rowOne : RowParser := fun _ => some ([(0 : ℚ)], 1, 1)

/-- C4 witness: the one-tree ensemble on an accepted concrete row. -/
theorem optimal_num_trees_eval_witness :
    rowOne ("r") = some ([(0 : ℚ)], 1, 1) ∧
    ({ funs := [{}] } : EvalState).funs.length = modelOne.length ∧
    (evalLine rowOne modelOne true { funs := [{}] } ("r")).funs =
      List.zipWith
        (fun g k =>
          LeastSquareFun.accumulateExampleLoss g 1
            (predict (modelOne.take (k + 1)) [(0 : ℚ)]))
        ({ funs := [{}] } : EvalState).funs (List.range modelOne.length) :=
  ⟨rfl, rfl,
    (optimal_num_trees_eval rowOne modelOne { funs := [{}] } ("r")
      [(0 : ℚ)] 1 1 rfl rfl).1⟩

/-! ### C8: agreement counting -/

theorem evalLine_agreeCount (getRow : RowParser) (model : List Tree)
    (fot : Bool) (st : EvalState) (line : String) (fv : List ℚ) (t sc : ℚ)
    (hrow : getRow line = some (fv, t, sc)) :
    (evalLine getRow model fot st line).agreeCount =
      if |sc - predict model fv| ≤ 1 / 100000 then st.agreeCount + 1
      else st.agreeCount := by
  cases fot
  · simp [evalLine, hrow, evalRow]
  · simp [evalLine, hrow, evalRow, predict_vec_eq]

theorem evalFile_agreeCount_all (getRow : RowParser) (model : List Tree)
    (fot : Bool) :
    ∀ (stream : List String) (st : EvalState),
      (∀ line ∈ stream, ∃ fv t,
        getRow line = some (fv, t, predict model fv)) →
      (evalFile getRow model fot st stream).agreeCount =
        st.agreeCount + stream.length := by
  intro stream
  induction stream with
  | nil => intro st _; simp [evalFile]
  | cons line rest ih =>
      intro st hall
      obtain ⟨fv, t, hline⟩ := hall line (by simp)
      have hstep : evalFile getRow model fot st (line :: rest) =
          evalFile getRow model fot (evalLine getRow model fot st line)
            rest := by
        simp [evalFile]
      rw [hstep, ih _ (fun l hl => hall l (by simp [hl]))]
      rw [evalLine_agreeCount getRow model fot st line fv t _ hline]
      rw [if_pos (by rw [sub_self, abs_zero]; norm_num)]
      simp [List.length_cons]
      omega

/-- A concrete row parser for two test rows whose logged scores both equal the
computed prediction 1 of `modelOne`. -/
def rowExact : RowParser := fun s =>
  if s = ("r1" : String) then some ([(0 : ℚ)], 1, 1)
  else if s = ("r2" : String) then some ([(0 : ℚ)], 1, 1) else none

/-- The same two test rows, with the second logged score perturbed by
`2e-5`, which exceeds the `1e-5` tolerance. -/
def rowPerturbed : RowParser := fun s =>
  if s = ("r1" : String) then some ([(0 : ℚ)], 1, 1)
  else if s = ("r2" : String) then some ([(0 : ℚ)], 1, 1 + 1 / 50000)
  else none

/-- C8: the agreement counter is bumped exactly when the freshly computed
full-ensemble prediction is within absolute tolerance `1e-5` of the row's
logged score; when every logged score equals its computed prediction the
agreement count equals the row count; and at a concrete pair of test rows,
perturbing one logged score by `2e-5 > 1e-5` drops the agreement count from 2
to 1 — by exactly one. -/
theorem agreement_spec :
    (∀ (getRow : RowParser) (model : List Tree) (fot : Bool)
        (st : EvalState) (line : String) (fv : List ℚ) (t sc : ℚ),
      getRow line = some (fv, t, sc) →
      (evalLine getRow model fot st line).agreeCount =
        if |sc - predict model fv| ≤ 1 / 100000 then st.agreeCount + 1
        else st.agreeCount) ∧
    (∀ (getRow : RowParser) (model : List Tree) (fot : Bool)
        (st : EvalState) (stream : List String),
      (∀ line ∈ stream, ∃ fv t,
        getRow line = some (fv, t, predict model fv)) →
      (evalFile getRow model fot st stream).agreeCount =
        st.agreeCount + stream.length) ∧
    (evalFile rowExact modelOne false {}
      [("r1" : String), "r2"]).agreeCount = 2 ∧
    (evalFile rowPerturbed modelOne false {}
      [("r1" : String), "r2"]).agreeCount = 1 ∧
    ¬ (|(1 + 1 / 50000 : ℚ) - 1| ≤ 1 / 100000) := by
  have hp : predict modelOne [(0 : ℚ)] = 1 := by
    simp [predict, modelOne, treeOne]
  refine ⟨evalLine_agreeCount, fun getRow model fot st stream h =>
    evalFile_agreeCount_all getRow model fot stream st h, ?_, ?_, ?_⟩
  · have hA := evalFile_agreeCount_all rowExact modelOne false
      [("r1" : String), "r2"] {} ?_
    · simpa using hA
    · intro line hl
      rcases (by simpa using hl : line = ("r1" : String) ∨
        line = ("r2" : String)) with h1 | h1 <;>
        · subst h1
          exact ⟨[(0 : ℚ)], 1, by rw [hp]; decide⟩
  · have hr1 : rowPerturbed ("r1") = some ([(0 : ℚ)], 1, 1) := rfl
    have hr2 : rowPerturbed ("r2") =
        some ([(0 : ℚ)], 1, 1 + 1 / 50000) := rfl
    have e1 : evalFile rowPerturbed modelOne false {}
        [("r1" : String), "r2"] =
        evalLine rowPerturbed modelOne false
          (evalLine rowPerturbed modelOne false {} ("r1")) ("r2") := by
      simp [evalFile]
    rw [e1]
    rw [evalLine_agreeCount rowPerturbed modelOne false _ ("r2") [(0 : ℚ)] 1
      (1 + 1 / 50000) hr2]
    rw [if_neg (by
      rw [hp, show (1 + 1 / 50000 : ℚ) - 1 = 1 / 50000 by ring,
        abs_of_pos (by norm_num)]
      norm_num)]
    rw [evalLine_agreeCount rowPerturbed modelOne false {} ("r1") [(0 : ℚ)]
      1 1 hr1]
    rw [if_pos (by rw [hp]; norm_num)]
  · rw [show (1 + 1 / 50000 : ℚ) - 1 = 1 / 50000 by ring,
      abs_of_pos (by norm_num)]
    norm_num

/-- C8 witness: the per-row rule applied at a concrete accepted row whose
logged score equals the computed prediction. -/
theorem agreement_spec_witness :
    rowExact ("r1") = some ([(0 : ℚ)], 1, 1) ∧
    (evalLine rowExact modelOne false {} ("r1")).agreeCount =
      if |(1 : ℚ) - predict modelOne [(0 : ℚ)]| ≤ 1 / 100000 then
        ({} : EvalState).agreeCount + 1
      else ({} : EvalState).agreeCount :=
  ⟨rfl, agreement_spec.1 rowExact modelOne false {} ("r1")
    [(0 : ℚ)] 1 1 rfl⟩

end Boosting
